import Mathlib

/-!
# Verification of the crypto multi-agent market simulator core

Shallow embedding of the simulator's core components — the per-symbol
limit order book (`src/orderbook/order_book.py`), the publish/subscribe
message broker (`src/message.py`), the simulation kernel
(`src/core/kernel.py`), the agent base contract (`src/core/agent.py`) and
the exchange agent (`src/core/exchange.py`) — together with theorems that
settle the specification claims about them.

Modelling conventions:
* Python floats become `ℚ` values; the price sentinel `float('inf')` becomes
  the `none` ("infinity") value of `Price := Option ℚ` with explicit
  comparison functions mirroring IEEE total order on `{q, +∞}`.
* Python `int` quantities become `Int` (they can go negative through the
  code's unchecked subtractions).
* Python objects are aliased mutable records; we model the object heap of
  `Order` objects explicitly as an association list keyed by `order_id`,
  since the matcher mutates order objects that are simultaneously referenced
  from price levels and from the `order_map` index.
* `sortedcontainers.SortedDict` price maps become lists of levels kept
  sorted best-price-first by an ordered insertion.
* The matching loop of `_match_order` is a `while` loop whose termination
  is not structurally evident (and indeed fails on corrupted book states),
  so it takes an explicit fuel parameter; all theorems hold for every fuel.
-/

namespace CryptoSim

/-- Order side; Python validates `side ∈ {"BUY", "SELL"}` in
`Order.__post_init__`, which the inductive type captures. -/
inductive Side where
  | BUY : Side
  | SELL : Side
deriving DecidableEq, Repr

/-- The string carried by a validated Python order side. -/
def Side.toStr : Side → String
  | .BUY => "BUY"
  | .SELL => "SELL"

/-- A price: a finite float (`some q`) or the market sentinel
`float('inf')` (`none`). -/
abbrev Price := Option ℚ

/-- Finite price. -/
def pfin (q : ℚ) : Price := some q

/-- `float('inf')`. -/
def pinf : Price := none

/-- `a <= b` on prices, with `+∞` as the top element (IEEE order). -/
def pLe (a b : Price) : Bool :=
  match a, b with
  | _, none => true
  | none, some _ => false
  | some x, some y => decide (x ≤ y)

/-- `a < b` on prices. -/
def pLt (a b : Price) : Bool :=
  match a, b with
  | _, none =>
      match a with
      | none => false
      | some _ => true
  | none, some _ => false
  | some x, some y => decide (x < y)

/-- `a - b` on prices. Only reached by `get_spread` with a finite
`best_ask`; the `none` cases model the `±inf` float arithmetic that cannot
arise from book-generated prices. -/
def pSub (a b : Price) : Price :=
  match a, b with
  | some x, some y => some (x - y)
  | _, _ => none

/-- Finite value of a price (levels created by the book hold finite prices
whenever orders enter through the exchange, since market sentinels never
rest). -/
def pVal : Price → ℚ
  | some q => q
  | none => 0

/-- Mirrors the `Order` dataclass of `src/orderbook/order_book.py` (the
`quantity` field is the mutable current remaining quantity). -/
structure Order where
  order_id : String
  agent_id : String
  symbol : String
  side : Side
  price : Price
  quantity : Int
  timestamp : Int
deriving DecidableEq, Repr

/-- A price level: its aggregate `quantity` and the FIFO of resting orders.
The FIFO holds `order_id`s; the order objects themselves live in the book's
object heap (they are aliased from several containers in Python). -/
structure Level where
  price : Price
  quantity : Int
  orders : List String
deriving DecidableEq, Repr

/-- The placeholder returned by heap lookup of an id that was never
allocated (does not occur in reachable executions). -/
def deadOrder : Order :=
  { order_id := "", agent_id := "", symbol := "", side := .BUY
    price := pfin 0, quantity := 0, timestamp := 0 }

/-- The Python object heap restricted to `Order` objects: maps an
`order_id` to the current state of the (unique, per the spec) object
carrying that id. -/
abbrev Heap := List (String × Order)

/-- Read an order object from the heap. -/
def heapGet (h : Heap) (k : String) : Order :=
  match h.find? (fun p => p.1 == k) with
  | some p => p.2
  | none => deadOrder

/-- Write (create or mutate) an order object in the heap. -/
def heapSet (h : Heap) (k : String) (v : Order) : Heap :=
  (k, v) :: h.filter (fun p => ! (p.1 == k))

/-- `order_map` key insertion (`self.order_map[order.order_id] = order`):
the id set of the dict. -/
def mapInsert (m : List String) (k : String) : List String :=
  if k ∈ m then m else m ++ [k]

/-- Mirrors the `OrderBook` class state: bids sorted highest-price-first,
asks lowest-price-first, derived best prices, the `order_id → Order` index
(as its key set `omap` plus the shared object heap), and the object heap. -/
structure OrderBook where
  symbol : String
  bids : List Level
  asks : List Level
  best_bid : Price
  best_ask : Price
  heap : Heap
  omap : List String
deriving DecidableEq, Repr

/-- A fresh book for a symbol (`OrderBook.__init__`). -/
def OrderBook.empty (symbol : String) : OrderBook :=
  { symbol := symbol, bids := [], asks := [], best_bid := pfin 0
    best_ask := pinf, heap := [], omap := [] }

/-- Insert a new level keeping the list sorted; `before a b` says `a`'s
price sorts strictly before `b`'s (descending for bids, ascending for
asks), mirroring the `SortedDict` key order. -/
def insertLevel (before : Price → Price → Bool) (l : Level) :
    List Level → List Level
  | [] => [l]
  | x :: xs =>
      if before l.price x.price then l :: x :: xs
      else x :: insertLevel before l xs

/-- Level lookup by price (`price in self.bids` / `self.bids[price]`). -/
def getLevel? (ls : List Level) (p : Price) : Option Level :=
  ls.find? (fun l => l.price == p)

/-- In-place level mutation at a price key. -/
def updateLevel (ls : List Level) (p : Price) (f : Level → Level) :
    List Level :=
  ls.map (fun l => if l.price == p then f l else l)

/-- `del side[price]`. -/
def delLevel (ls : List Level) (p : Price) : List Level :=
  ls.filter (fun l => ! (l.price == p))

/-- `OrderBook._update_best_prices`. -/
def updateBestPrices (st : OrderBook) : OrderBook :=
  { st with
    best_bid := match st.bids with | [] => pfin 0 | l :: _ => l.price
    best_ask := match st.asks with | [] => pinf | l :: _ => l.price }

/-- A trade tuple as produced by `_execute_match`:
`(trade_id, price, quantity, incoming_order.agent_id, existing_order.agent_id)`. -/
structure TradeRec where
  trade_id : String
  price : Price
  quantity : Int
  incoming_agent : String
  existing_agent : String
deriving DecidableEq, Repr

/-- The inner FIFO walk of `OrderBook._execute_match`: processes the ids
resting at one level in time priority while the incoming order has quantity
left. Returns the updated heap, updated `order_map` key set, the ids left
at the level, the trades emitted, and the total quantity traded (by which
the level's aggregate is decremented). -/
def execOrders (h : Heap) (omap : List String) (inId : String) :
    List String → Heap × List String × List String × List TradeRec × Int
  | [] => (h, omap, [], [], 0)
  | exId :: rest =>
      let inO := heapGet h inId
      if inO.quantity ≤ 0 then
        (h, omap, exId :: rest, [], 0)
      else
        let exO := heapGet h exId
        let q := min inO.quantity exO.quantity
        let trade : TradeRec :=
          { trade_id := "TRADE_" ++ inId ++ "_" ++ exId
            price := exO.price
            quantity := q
            incoming_agent := inO.agent_id
            existing_agent := exO.agent_id }
        let h := heapSet h inId { inO with quantity := inO.quantity - q }
        let h := heapSet h exId { exO with quantity := exO.quantity - q }
        if exO.quantity - q ≤ 0 then
          -- fully executed resting order: `del self.order_map[...]`,
          -- `del opposite_level.orders[i]`
          let omap := omap.filter (fun x => ! (x == exId))
          let r := execOrders h omap inId rest
          (r.1, r.2.1, r.2.2.1, trade :: r.2.2.2.1, q + r.2.2.2.2)
        else
          let r := execOrders h omap inId rest
          (r.1, r.2.1, exId :: r.2.2.1, trade :: r.2.2.2.1, q + r.2.2.2.2)

/-- `True if order.price == float('inf') else ask_price <= order.price`. -/
def buyCrosses (orderPrice askPrice : Price) : Bool :=
  if orderPrice == pinf then true else pLe askPrice orderPrice

/-- `True if order.price == 0.0 else bid_price >= order.price`. -/
def sellCrosses (orderPrice bidPrice : Price) : Bool :=
  if orderPrice == pfin 0 then true else pLe orderPrice bidPrice

/-- The BUY branch of the `while` loop in `OrderBook._match_order`:
repeatedly match the incoming order against the best ask level, deleting
levels whose aggregate reaches zero. Fuel bounds the number of loop
iterations (the Python loop can diverge on corrupted books). -/
def matchLoopBuy : Nat → OrderBook → String → OrderBook × List TradeRec
  | 0, st, _ => (st, [])
  | fuel + 1, st, inId =>
      let inO := heapGet st.heap inId
      match st.asks with
      | [] => (st, [])
      | lvl :: restLvls =>
          if inO.quantity > 0 ∧ buyCrosses inO.price lvl.price = true then
            let r := execOrders st.heap st.omap inId lvl.orders
            let lvl' : Level :=
              { lvl with orders := r.2.2.1, quantity := lvl.quantity - r.2.2.2.2 }
            let st :=
              { st with heap := r.1, omap := r.2.1
                        asks := if lvl'.quantity ≤ 0 then restLvls
                                else lvl' :: restLvls }
            let next := matchLoopBuy fuel st inId
            (next.1, r.2.2.2.1 ++ next.2)
          else (st, [])

/-- The SELL branch of the `while` loop in `OrderBook._match_order`. -/
def matchLoopSell : Nat → OrderBook → String → OrderBook × List TradeRec
  | 0, st, _ => (st, [])
  | fuel + 1, st, inId =>
      let inO := heapGet st.heap inId
      match st.bids with
      | [] => (st, [])
      | lvl :: restLvls =>
          if inO.quantity > 0 ∧ sellCrosses inO.price lvl.price = true then
            let r := execOrders st.heap st.omap inId lvl.orders
            let lvl' : Level :=
              { lvl with orders := r.2.2.1, quantity := lvl.quantity - r.2.2.2.2 }
            let st :=
              { st with heap := r.1, omap := r.2.1
                        bids := if lvl'.quantity ≤ 0 then restLvls
                                else lvl' :: restLvls }
            let next := matchLoopSell fuel st inId
            (next.1, r.2.2.2.1 ++ next.2)
          else (st, [])

/-- `OrderBook._match_order` (ends with `_update_best_prices`). -/
def matchOrder (fuel : Nat) (st : OrderBook) (inId : String) :
    OrderBook × List TradeRec :=
  let inO := heapGet st.heap inId
  let r :=
    match inO.side with
    | .BUY => matchLoopBuy fuel st inId
    | .SELL => matchLoopSell fuel st inId
  (updateBestPrices r.1, r.2)

/-- `OrderBook.add_limit_order`. The incoming order object is allocated on
the heap on entry; the remainder (after the optional partial-market
execution against same-price opposite liquidity) is inserted into its own
side's level *before* `_match_order` runs, exactly as in the source. -/
def addLimitOrder (fuel : Nat) (st : OrderBook) (o : Order)
    (execute_partial_market : Bool) : OrderBook × List TradeRec :=
  let st := { st with heap := heapSet st.heap o.order_id o }
  let pmPhase :=
    if execute_partial_market then
      let liquidity_at_price : Int :=
        match o.side with
        | .BUY => match getLevel? st.asks o.price with
                  | some l => l.quantity
                  | none => 0
        | .SELL => match getLevel? st.bids o.price with
                   | some l => l.quantity
                   | none => 0
      if liquidity_at_price > 0 then
        let fillable := min o.quantity liquidity_at_price
        let mpId := o.order_id ++ "_MARKET_PART"
        let st := { st with heap := heapSet st.heap mpId { o with order_id := mpId, quantity := fillable } }
        let r := matchOrder fuel st mpId
        let st := r.1
        -- `order.quantity -= fillable_quantity` (mutates the heap object)
        let oNow := heapGet st.heap o.order_id
        let st := { st with heap := heapSet st.heap o.order_id { oNow with quantity := oNow.quantity - fillable } }
        (st, r.2, oNow.quantity - fillable)
      else (st, ([] : List TradeRec), o.quantity)
    else (st, ([] : List TradeRec), o.quantity)
  let st := pmPhase.1
  let trades := pmPhase.2.1
  let remQty := pmPhase.2.2
  if remQty > 0 then
    let st := { st with omap := mapInsert st.omap o.order_id }
    let appendOrder : Level → Level := fun l =>
      { l with orders := l.orders ++ [o.order_id], quantity := l.quantity + remQty }
    let st :=
      match o.side with
      | .BUY =>
          let bids :=
            if (getLevel? st.bids o.price).isSome then st.bids
            else insertLevel (fun a b => pLt b a) ⟨o.price, 0, []⟩ st.bids
          { st with bids := updateLevel bids o.price appendOrder }
      | .SELL =>
          let asks :=
            if (getLevel? st.asks o.price).isSome then st.asks
            else insertLevel (fun a b => pLt a b) ⟨o.price, 0, []⟩ st.asks
          { st with asks := updateLevel asks o.price appendOrder }
    let st := updateBestPrices st
    let r := matchOrder fuel st o.order_id
    (r.1, trades ++ r.2)
  else (st, trades)

/-- `OrderBook.get_market_depth` (the opposite side, best first, up to
`depth` levels). The `side` argument stays a raw string: any value other
than `"BUY"` takes the SELL branch, as in the source. -/
def getMarketDepth (st : OrderBook) (side : String) (depth : Nat) :
    List (Price × Int) :=
  if side == "BUY" then (st.asks.take depth).map (fun l => (l.price, l.quantity))
  else (st.bids.take depth).map (fun l => (l.price, l.quantity))

/-- `OrderBook.get_total_quantity_at_side` (`depth = none` sums all
levels). -/
def getTotalQuantityAtSide (st : OrderBook) (side : String)
    (depth : Option Nat) : Int :=
  let levels := if side == "BUY" then st.asks else st.bids
  let levels := match depth with
                | some d => levels.take d
                | none => levels
  (levels.map (fun l => l.quantity)).sum

/-- The accumulation loop of `get_average_price_for_quantity`: walks the
depth levels accumulating `(total_cost, filled_quantity)` until the
requested quantity is covered. -/
def avgAccum (quantity : Int) : List (Price × Int) → ℚ × Int → ℚ × Int
  | [], acc => acc
  | (p, avail) :: rest, (cost, filled) =>
      if filled ≥ quantity then (cost, filled)
      else
        let q := min avail (quantity - filled)
        avgAccum quantity rest (cost + pVal p * (q : ℚ), filled + q)

/-- `OrderBook.get_average_price_for_quantity`: returns
`(average_price, slippage_bps, fill_percentage)`; all zero when there is no
opposite-side liquidity (or nothing fills). Note the source computes the
depth list with its default `depth = 5`. -/
def getAveragePriceForQuantity (st : OrderBook) (side : String)
    (quantity : Int) : ℚ × ℚ × ℚ :=
  let levels := getMarketDepth st side 5
  match levels with
  | [] => (0, 0, 0)
  | (p₀, _) :: _ =>
      let acc := avgAccum quantity levels (0, 0)
      let cost := acc.1
      let filled := acc.2
      if filled = 0 then (0, 0, 0)
      else
        let reference := pVal p₀
        let average := cost / (filled : ℚ)
        let fillPct := (filled : ℚ) / (quantity : ℚ)
        let slippage :=
          if side == "BUY" then (average - reference) / reference * 10000
          else (reference - average) / reference * 10000
        (average, slippage, fillPct)

/-- `OrderBook.can_fill_order`: `(fill_percentage >= min_fill_percent,
fill_percentage)`. -/
def canFillOrder (st : OrderBook) (side : String) (quantity : Int)
    (min_fill_percent : ℚ) : Bool × ℚ :=
  let pct := (getAveragePriceForQuantity st side quantity).2.2
  (decide (min_fill_percent ≤ pct), pct)

/-- `OrderBook.add_market_order`: liquidity-guard first; on acceptance the
order object is allocated, indexed in `order_map`, and matched. Returns
`(accepted, trades, book')`. -/
def addMarketOrder (fuel : Nat) (st : OrderBook) (o : Order)
    (min_fill_percent : ℚ) : Bool × List TradeRec × OrderBook :=
  let cf := canFillOrder st o.side.toStr o.quantity min_fill_percent
  if cf.1 then
    let st := { st with heap := heapSet st.heap o.order_id o
                        omap := mapInsert st.omap o.order_id }
    let r := matchOrder fuel st o.order_id
    (true, r.2, r.1)
  else (false, [], st)

/-- `OrderBook.cancel_order`. -/
def cancelOrder (st : OrderBook) (order_id : String) : Bool × OrderBook :=
  if order_id ∈ st.omap then
    let o := heapGet st.heap order_id
    let st :=
      match o.side with
      | .BUY =>
          match getLevel? st.bids o.price with
          | some lvl =>
              let lvl' : Level :=
                { lvl with orders := lvl.orders.filter (fun x => ! (x == order_id))
                           quantity := lvl.quantity - o.quantity }
              if lvl'.quantity ≤ 0 then { st with bids := delLevel st.bids o.price }
              else { st with bids := updateLevel st.bids o.price (fun _ => lvl') }
          | none => st
      | .SELL =>
          match getLevel? st.asks o.price with
          | some lvl =>
              let lvl' : Level :=
                { lvl with orders := lvl.orders.filter (fun x => ! (x == order_id))
                           quantity := lvl.quantity - o.quantity }
              if lvl'.quantity ≤ 0 then { st with asks := delLevel st.asks o.price }
              else { st with asks := updateLevel st.asks o.price (fun _ => lvl') }
          | none => st
    let st := { st with omap := st.omap.filter (fun x => ! (x == order_id)) }
    (true, updateBestPrices st)
  else (false, st)

/-- `OrderBook.get_spread`. -/
def getSpread (st : OrderBook) : Price :=
  if st.best_ask == pinf ∨ st.best_bid == pfin 0 then pinf
  else pSub st.best_ask st.best_bid

/-- `OrderBook.get_liquidity_score` (note the source passes `"SELL"` for
the variable it names `bid_quantity`, and vice versa). -/
def getLiquidityScore (st : OrderBook) (reference_quantity : Int) : ℚ :=
  let bid_quantity := getTotalQuantityAtSide st "SELL" none
  let ask_quantity := getTotalQuantityAtSide st "BUY" none
  let bid_score := min ((bid_quantity : ℚ) / (reference_quantity : ℚ)) 1
  let ask_score := min ((ask_quantity : ℚ) / (reference_quantity : ℚ)) 1
  (bid_score + ask_score) / 2

/-- `OrderBook.get_imbalance`. -/
def getImbalance (st : OrderBook) : ℚ :=
  let bid_quantity := getTotalQuantityAtSide st "SELL" none
  let ask_quantity := getTotalQuantityAtSide st "BUY" none
  if bid_quantity + ask_quantity = 0 then 0
  else ((bid_quantity : ℚ) - (ask_quantity : ℚ)) /
       ((bid_quantity : ℚ) + (ask_quantity : ℚ))

/-- `OrderBook.get_order_book_snapshot`. -/
def getOrderBookSnapshot (st : OrderBook) (depth : Nat) :
    List (Price × Int) × List (Price × Int) × Price × Price :=
  ((st.bids.take depth).map (fun l => (l.price, l.quantity)),
   (st.asks.take depth).map (fun l => (l.price, l.quantity)),
   st.best_bid, st.best_ask)

/-- The sum of the current quantities of the orders resting at a level
(the value the level's aggregate `quantity` is supposed to equal). -/
def levelOrdersQty (st : OrderBook) (l : Level) : Int :=
  (l.orders.map (fun oid => (heapGet st.heap oid).quantity)).sum

/-- Mirrors the `Trade` dataclass of `src/orderbook/order_book.py`. -/
structure Trade where
  trade_id : String
  symbol : String
  price : Price
  quantity : Int
  buyer_id : String
  seller_id : String
  timestamp : Int
deriving DecidableEq, Repr

/-- The trade-record construction of `ExchangeAgent._process_order`
(`src/core/exchange.py` lines 89–98): the matcher tuple is unpacked
positionally as `trade_id, price, quantity, buyer_id, seller_id`, so the
incoming order's agent is always recorded as the buyer and the resting
order's agent as the seller, regardless of which side each is on. -/
def tradeOfTuple (symbol : String) (ts : Int) (t : TradeRec) : Trade :=
  { trade_id := t.trade_id, symbol := symbol, price := t.price
    quantity := t.quantity, buyer_id := t.incoming_agent
    seller_id := t.existing_agent, timestamp := ts }

/-! ## Scenario S1 (claims C1, C2): simple cross on an empty book -/

/-- S1 first order: agent A sells 10 at 100.0 at t=100. -/
def s1SellA1 : Order :=
  { order_id := "A1", agent_id := "A", symbol := "X", side := .SELL
    price := pfin 100, quantity := 10, timestamp := 100 }

/-- S1 second order: agent B buys 10 at 100.0 at t=200. -/
def s1BuyB1 : Order :=
  { order_id := "B1", agent_id := "B", symbol := "X", side := .BUY
    price := pfin 100, quantity := 10, timestamp := 200 }

/-- The book after A1 is added to an empty book for "X". -/
def s1AfterA1 : OrderBook × List TradeRec :=
  addLimitOrder 10 (OrderBook.empty "X") s1SellA1 false

/-- The book and trades after B1 is then added. -/
def s1AfterB1 : OrderBook × List TradeRec :=
  addLimitOrder 10 s1AfterA1.1 s1BuyB1 false

/-- Claim C1. Scenario S1 evaluated on the code. Adding A1 produces no
trades; adding B1 produces exactly the expected trade
`TRADE_B1_A1 @ 100.0 x 10` with B's agent as buyer and A's agent as
seller, and the ask side is emptied — but, contrary to the claim, the book
is NOT empty afterwards: the fully filled aggressor B1 is left resting in
a bid level at 100.0 whose stale aggregate is 10, B1 remains in the
order-id index, and `best_bid` is 100.0 rather than 0.0. (The aggressor is
inserted into its own side before `_match_order` runs, and
`_execute_match` removes only the resting side's orders.) -/
theorem claim_C1_s1_eval :
    s1AfterA1.2 = [] ∧
    s1AfterB1.2 = [⟨"TRADE_B1_A1", pfin 100, 10, "B", "A"⟩] ∧
    (tradeOfTuple "X" 200 ⟨"TRADE_B1_A1", pfin 100, 10, "B", "A"⟩).buyer_id
      = "B" ∧
    (tradeOfTuple "X" 200 ⟨"TRADE_B1_A1", pfin 100, 10, "B", "A"⟩).seller_id
      = "A" ∧
    s1AfterB1.1.asks = [] ∧
    s1AfterB1.1.best_ask = pinf ∧
    s1AfterB1.1.bids = [⟨pfin 100, 10, ["B1"]⟩] ∧
    s1AfterB1.1.best_bid = pfin 100 ∧
    s1AfterB1.1.omap = ["B1"] ∧
    ¬ (s1AfterB1.1.bids = [] ∧ s1AfterB1.1.best_bid = pfin 0 ∧
       s1AfterB1.1.omap = []) := by
  decide

/-- Claim C2. The book-index invariant evaluated right after the
`add_limit_order` call of scenario S1: order B1 has quantity 0 yet still
sits in a price level and in the order-id index, and that level's
aggregate quantity (10) differs from the sum of the quantities of the
orders in its FIFO (0). Every conjunct of the claimed invariant fails. -/
theorem claim_C2_inv_eval :
    (heapGet s1AfterB1.1.heap "B1").quantity = 0 ∧
    "B1" ∈ s1AfterB1.1.omap ∧
    s1AfterB1.1.bids = [⟨pfin 100, 10, ["B1"]⟩] ∧
    levelOrdersQty s1AfterB1.1 ⟨pfin 100, 10, ["B1"]⟩ = 0 ∧
    (10 : Int) ≠ (0 : Int) := by
  decide

/-! ## Claim C3: buyer/seller attribution with a SELL aggressor -/

/-- Resting BUY order from agent "B" (the true buyer). -/
def c3BuyB1 : Order :=
  { order_id := "B1", agent_id := "B", symbol := "X", side := .BUY
    price := pfin 100, quantity := 10, timestamp := 100 }

/-- Aggressor SELL order from agent "A" (the true seller). -/
def c3SellS1 : Order :=
  { order_id := "S1", agent_id := "A", symbol := "X", side := .SELL
    price := pfin 100, quantity := 10, timestamp := 200 }

/-- Book and trades after the SELL aggressor hits the resting BUY. -/
def c3AfterS1 : OrderBook × List TradeRec :=
  addLimitOrder 10 (addLimitOrder 10 (OrderBook.empty "X") c3BuyB1 false).1
    c3SellS1 false

/-- Claim C3. When the SELL aggressor S1 (agent "A") matches the resting
BUY order B1 (agent "B"), the matcher emits the tuple whose fourth
position is the incoming order's agent; `_process_order` unpacks that
position as `buyer_id`. The exchange therefore reports the SELL-side agent
"A" as the buyer and the BUY-side agent "B" as the seller — the opposite
of what the claim states for a SELL aggressor. -/
theorem claim_C3_buyer_eval :
    c3BuyB1.side = Side.BUY ∧ c3BuyB1.agent_id = "B" ∧
    c3SellS1.side = Side.SELL ∧ c3SellS1.agent_id = "A" ∧
    c3AfterS1.2 = [⟨"TRADE_S1_B1", pfin 100, 10, "A", "B"⟩] ∧
    (tradeOfTuple "X" 200 ⟨"TRADE_S1_B1", pfin 100, 10, "A", "B"⟩).buyer_id
      = "A" ∧
    (tradeOfTuple "X" 200 ⟨"TRADE_S1_B1", pfin 100, 10, "A", "B"⟩).seller_id
      = "B" ∧
    "A" ≠ "B" := by
  decide

/-! ## Claim C7: market-order rejection is atomic -/

/-- Claim C7. If the would-fill fraction of a market order against the
current opposite side (as computed by `can_fill_order`, i.e. the
`fill_percentage` of `get_average_price_for_quantity`) is below
`min_fill_percent`, then `add_market_order` returns `(false, [])` and the
entire book state — levels, aggregates, order-id index, heap, best bid and
best ask — is returned unchanged: the liquidity guard runs before any
mutation. -/
theorem claim_C7_market_reject (fuel : Nat) (st : OrderBook) (o : Order)
    (f : ℚ)
    (h : (getAveragePriceForQuantity st o.side.toStr o.quantity).2.2 < f) :
    addMarketOrder fuel st o f = (false, [], st) := by
  have hnot : ¬ f ≤ (getAveragePriceForQuantity st o.side.toStr o.quantity).2.2 :=
    not_le.mpr h
  simp [addMarketOrder, canFillOrder, hnot]

/-- A book holding only a resting BUY (no asks at all). -/
def c7Book : OrderBook :=
  (addLimitOrder 10 (OrderBook.empty "X")
    { order_id := "BID1", agent_id := "M", symbol := "X", side := .BUY
      price := pfin 99, quantity := 5, timestamp := 50 } false).1

/-- A market BUY (price sentinel `+∞`) for 10 units. -/
def c7MarketBuy : Order :=
  { order_id := "MKT1", agent_id := "T", symbol := "X", side := .BUY
    price := pinf, quantity := 10, timestamp := 300 }

/-- Witness for C7: a market BUY against empty asks with
`min_fill_percent = 1 > 0` has would-fill fraction 0 and is rejected with
no trades and no mutation at all. -/
theorem claim_C7_market_reject_witness :
    (getAveragePriceForQuantity c7Book c7MarketBuy.side.toStr
        c7MarketBuy.quantity).2.2 < (1 : ℚ) ∧
    addMarketOrder 10 c7Book c7MarketBuy 1 = (false, [], c7Book) :=
  ⟨by decide, claim_C7_market_reject 10 c7Book c7MarketBuy 1 (by decide)⟩

/-! ## Claim C10: accepted market orders stay in the order-id index -/

lemma findP_filter_ne (h : Heap) (k k' : String) (hne : k' ≠ k) :
    (h.filter (fun p => ! (p.1 == k))).find? (fun p => p.1 == k') =
      h.find? (fun p => p.1 == k') := by
  induction h with
  | nil => rfl
  | cons a t ih =>
      by_cases ha : a.1 = k
      · have h1 : (a.1 == k) = true := beq_iff_eq.mpr ha
        have h2 : (a.1 == k') = false := by
          refine beq_eq_false_iff_ne.mpr ?_
          rw [ha]; exact fun hh => hne hh.symm
        simp [List.filter_cons, List.find?, h1, h2, ih]
      · have h1 : (a.1 == k) = false := beq_eq_false_iff_ne.mpr ha
        by_cases hk' : a.1 = k'
        · have h2 : (a.1 == k') = true := beq_iff_eq.mpr hk'
          simp [List.filter_cons, List.find?, h1, h2]
        · have h2 : (a.1 == k') = false := beq_eq_false_iff_ne.mpr hk'
          simp [List.filter_cons, List.find?, h1, h2, ih]

lemma heapGet_heapSet_self (h : Heap) (k : String) (v : Order) :
    heapGet (heapSet h k v) k = v := by
  simp [heapGet, heapSet, List.find?]

lemma heapGet_heapSet_ne (h : Heap) (k k' : String) (v : Order)
    (hne : k' ≠ k) : heapGet (heapSet h k v) k' = heapGet h k' := by
  have h1 : ((k, v).1 == k') = false :=
    beq_eq_false_iff_ne.mpr fun hh => hne hh.symm
  simp only [heapGet, heapSet, List.find?, h1]
  rw [findP_filter_ne h k k' hne]

lemma mem_mapInsert_self (m : List String) (k : String) :
    k ∈ mapInsert m k := by
  unfold mapInsert
  split_ifs with h
  · exact h
  · simp

/-- `_execute_match` only removes ids from the `order_map` key set that
occur in the level FIFO it walks. -/
lemma execOrders_omap_mem {x inId : String} :
    ∀ {ids : List String} {h : Heap} {omap : List String},
      x ∈ omap → x ∉ ids → x ∈ (execOrders h omap inId ids).2.1 := by
  intro ids
  induction ids with
  | nil => intro h omap hx _; simpa [execOrders] using hx
  | cons exId rest ih =>
      intro h omap hx hni
      have hxex : x ≠ exId := fun he => hni (by simp [he])
      have hxrest : x ∉ rest := fun hr => hni (by simp [hr])
      simp only [execOrders]
      split_ifs with h1 h2
      · simpa using hx
      · exact ih (List.mem_filter.mpr ⟨hx, by simp [hxex]⟩) hxrest
      · exact ih hx hxrest

/-- The ids left at a level after `_execute_match` are among the ids that
were there before. -/
lemma execOrders_rem_subset {x inId : String} :
    ∀ {ids : List String} {h : Heap} {omap : List String},
      x ∈ (execOrders h omap inId ids).2.2.1 → x ∈ ids := by
  intro ids
  induction ids with
  | nil => intro h omap hx; simp [execOrders] at hx
  | cons exId rest ih =>
      intro h omap hx
      simp only [execOrders] at hx
      split_ifs at hx with h1 h2
      · simpa using hx
      · exact List.mem_cons_of_mem _ (ih hx)
      · rcases List.mem_cons.mp hx with he | hr
        · simp [he]
        · exact List.mem_cons_of_mem _ (ih hr)

/-- `_execute_match` mutates only order quantities: the side and price of
every heap object are preserved. -/
lemma execOrders_heap_fields {inId k : String} :
    ∀ {ids : List String} {h : Heap} {omap : List String},
      (heapGet (execOrders h omap inId ids).1 k).side = (heapGet h k).side ∧
      (heapGet (execOrders h omap inId ids).1 k).price = (heapGet h k).price := by
  intro ids
  induction ids with
  | nil => intro h omap; simp [execOrders]
  | cons exId rest ih =>
      intro h omap
      simp only [execOrders]
      split_ifs with h1 h2
      · exact ⟨rfl, rfl⟩
      all_goals {
        refine ⟨?_, ?_⟩ <;>
        · first
          | rw [ih.1] | rw [ih.2]
          by_cases hk1 : k = exId
          · subst hk1; rw [heapGet_heapSet_self]
          · rw [heapGet_heapSet_ne _ _ _ _ hk1]
            by_cases hk2 : k = inId
            · subst hk2; rw [heapGet_heapSet_self]
            · rw [heapGet_heapSet_ne _ _ _ _ hk2]
      }

/-- The BUY match loop never touches the bid side. -/
lemma matchLoopBuy_bids (inId : String) :
    ∀ (fuel : Nat) (st : OrderBook),
      (matchLoopBuy fuel st inId).1.bids = st.bids := by
  intro fuel
  induction fuel with
  | zero => intro st; rfl
  | succ n ih =>
      intro st
      simp only [matchLoopBuy]
      rcases hA : st.asks with _ | ⟨lvl, rest⟩
      · rfl
      · dsimp only
        split_ifs with h1 h2
        · rw [ih]
        · rw [ih]
        · rfl

/-- The SELL match loop never touches the ask side. -/
lemma matchLoopSell_asks (inId : String) :
    ∀ (fuel : Nat) (st : OrderBook),
      (matchLoopSell fuel st inId).1.asks = st.asks := by
  intro fuel
  induction fuel with
  | zero => intro st; rfl
  | succ n ih =>
      intro st
      simp only [matchLoopSell]
      rcases hA : st.bids with _ | ⟨lvl, rest⟩
      · rfl
      · dsimp only
        split_ifs with h1 h2
        · rw [ih]
        · rw [ih]
        · rfl

/-- The BUY match loop keeps the incoming id in the index as long as the
incoming id rests at no ask level. -/
lemma matchLoopBuy_omap (inId : String) :
    ∀ (fuel : Nat) (st : OrderBook),
      inId ∈ st.omap → (∀ l ∈ st.asks, inId ∉ l.orders) →
      inId ∈ (matchLoopBuy fuel st inId).1.omap := by
  intro fuel
  induction fuel with
  | zero => intro st hm _; exact hm
  | succ n ih =>
      intro st hm hl
      simp only [matchLoopBuy]
      rcases hA : st.asks with _ | ⟨lvl, rest⟩
      · exact hm
      · have hlvl : inId ∉ lvl.orders := hl lvl (by simp [hA])
        have hrest : ∀ l ∈ rest, inId ∉ l.orders :=
          fun l hle => hl l (by simp [hA, hle])
        dsimp only
        split_ifs with h1 h2
        · exact ih _ (execOrders_omap_mem hm hlvl) hrest
        · refine ih _ (execOrders_omap_mem hm hlvl) ?_
          intro l hle
          rcases List.mem_cons.mp hle with he | hr
          · subst he
            exact fun hmem => hlvl (execOrders_rem_subset hmem)
          · exact hrest l hr
        · exact hm

/-- The SELL match loop keeps the incoming id in the index as long as the
incoming id rests at no bid level. -/
lemma matchLoopSell_omap (inId : String) :
    ∀ (fuel : Nat) (st : OrderBook),
      inId ∈ st.omap → (∀ l ∈ st.bids, inId ∉ l.orders) →
      inId ∈ (matchLoopSell fuel st inId).1.omap := by
  intro fuel
  induction fuel with
  | zero => intro st hm _; exact hm
  | succ n ih =>
      intro st hm hl
      simp only [matchLoopSell]
      rcases hA : st.bids with _ | ⟨lvl, rest⟩
      · exact hm
      · have hlvl : inId ∉ lvl.orders := hl lvl (by simp [hA])
        have hrest : ∀ l ∈ rest, inId ∉ l.orders :=
          fun l hle => hl l (by simp [hA, hle])
        dsimp only
        split_ifs with h1 h2
        · exact ih _ (execOrders_omap_mem hm hlvl) hrest
        · refine ih _ (execOrders_omap_mem hm hlvl) ?_
          intro l hle
          rcases List.mem_cons.mp hle with he | hr
          · subst he
            exact fun hmem => hlvl (execOrders_rem_subset hmem)
          · exact hrest l hr
        · exact hm

/-- The BUY match loop preserves side and price of heap objects. -/
lemma matchLoopBuy_heap_fields (inId k : String) :
    ∀ (fuel : Nat) (st : OrderBook),
      (heapGet (matchLoopBuy fuel st inId).1.heap k).side
        = (heapGet st.heap k).side ∧
      (heapGet (matchLoopBuy fuel st inId).1.heap k).price
        = (heapGet st.heap k).price := by
  intro fuel
  induction fuel with
  | zero => intro st; exact ⟨rfl, rfl⟩
  | succ n ih =>
      intro st
      simp only [matchLoopBuy]
      rcases hA : st.asks with _ | ⟨lvl, rest⟩
      · exact ⟨rfl, rfl⟩
      · dsimp only
        split_ifs with h1 h2
        · exact ⟨(ih _).1.trans execOrders_heap_fields.1,
                 (ih _).2.trans execOrders_heap_fields.2⟩
        · exact ⟨(ih _).1.trans execOrders_heap_fields.1,
                 (ih _).2.trans execOrders_heap_fields.2⟩
        · exact ⟨rfl, rfl⟩

/-- The SELL match loop preserves side and price of heap objects. -/
lemma matchLoopSell_heap_fields (inId k : String) :
    ∀ (fuel : Nat) (st : OrderBook),
      (heapGet (matchLoopSell fuel st inId).1.heap k).side
        = (heapGet st.heap k).side ∧
      (heapGet (matchLoopSell fuel st inId).1.heap k).price
        = (heapGet st.heap k).price := by
  intro fuel
  induction fuel with
  | zero => intro st; exact ⟨rfl, rfl⟩
  | succ n ih =>
      intro st
      simp only [matchLoopSell]
      rcases hA : st.bids with _ | ⟨lvl, rest⟩
      · exact ⟨rfl, rfl⟩
      · dsimp only
        split_ifs with h1 h2
        · exact ⟨(ih _).1.trans execOrders_heap_fields.1,
                 (ih _).2.trans execOrders_heap_fields.2⟩
        · exact ⟨(ih _).1.trans execOrders_heap_fields.1,
                 (ih _).2.trans execOrders_heap_fields.2⟩
        · exact ⟨rfl, rfl⟩

lemma getLevel?_eq_none {ls : List Level} {p : Price}
    (h : ∀ l ∈ ls, l.price ≠ p) : getLevel? ls p = none := by
  refine List.find?_eq_none.mpr fun l hl => ?_
  simp [h l hl]

/-- `_match_order` facts for a BUY incoming order: bids untouched, the
incoming id survives in the index when it rests at no ask level, and the
incoming object's side and price are unchanged. -/
lemma matchOrder_buy_facts (fuel : Nat) (s : OrderBook) (oid : String)
    (hside : (heapGet s.heap oid).side = Side.BUY) :
    (matchOrder fuel s oid).1.bids = s.bids ∧
    (oid ∈ s.omap → (∀ l ∈ s.asks, oid ∉ l.orders) →
      oid ∈ (matchOrder fuel s oid).1.omap) ∧
    (heapGet (matchOrder fuel s oid).1.heap oid).side
      = (heapGet s.heap oid).side ∧
    (heapGet (matchOrder fuel s oid).1.heap oid).price
      = (heapGet s.heap oid).price := by
  have hmo : matchOrder fuel s oid =
      (updateBestPrices (matchLoopBuy fuel s oid).1,
       (matchLoopBuy fuel s oid).2) := by
    simp only [matchOrder, hside]
  rw [hmo]
  exact ⟨matchLoopBuy_bids oid fuel s,
         fun hm hl => matchLoopBuy_omap oid fuel s hm hl,
         (matchLoopBuy_heap_fields oid oid fuel s).1,
         (matchLoopBuy_heap_fields oid oid fuel s).2⟩

/-- `_match_order` facts for a SELL incoming order. -/
lemma matchOrder_sell_facts (fuel : Nat) (s : OrderBook) (oid : String)
    (hside : (heapGet s.heap oid).side = Side.SELL) :
    (matchOrder fuel s oid).1.asks = s.asks ∧
    (oid ∈ s.omap → (∀ l ∈ s.bids, oid ∉ l.orders) →
      oid ∈ (matchOrder fuel s oid).1.omap) ∧
    (heapGet (matchOrder fuel s oid).1.heap oid).side
      = (heapGet s.heap oid).side ∧
    (heapGet (matchOrder fuel s oid).1.heap oid).price
      = (heapGet s.heap oid).price := by
  have hmo : matchOrder fuel s oid =
      (updateBestPrices (matchLoopSell fuel s oid).1,
       (matchLoopSell fuel s oid).2) := by
    simp only [matchOrder, hside]
  rw [hmo]
  exact ⟨matchLoopSell_asks oid fuel s,
         fun hm hl => matchLoopSell_omap oid fuel s hm hl,
         (matchLoopSell_heap_fields oid oid fuel s).1,
         (matchLoopSell_heap_fields oid oid fuel s).2⟩

/-- `cancel_order` on an indexed BUY order whose price matches no bid
level: returns `True` and touches neither side's levels. -/
lemma cancelOrder_miss_buy (s : OrderBook) (oid : String)
    (hmem : oid ∈ s.omap)
    (hside : (heapGet s.heap oid).side = Side.BUY)
    (hmiss : ∀ l ∈ s.bids, l.price ≠ (heapGet s.heap oid).price) :
    (cancelOrder s oid).1 = true ∧
    (cancelOrder s oid).2.bids = s.bids ∧
    (cancelOrder s oid).2.asks = s.asks := by
  have hnone : getLevel? s.bids (heapGet s.heap oid).price = none :=
    getLevel?_eq_none hmiss
  simp only [cancelOrder, if_pos hmem, hside, hnone]
  exact ⟨trivial, rfl, rfl⟩

/-- `cancel_order` on an indexed SELL order whose price matches no ask
level. -/
lemma cancelOrder_miss_sell (s : OrderBook) (oid : String)
    (hmem : oid ∈ s.omap)
    (hside : (heapGet s.heap oid).side = Side.SELL)
    (hmiss : ∀ l ∈ s.asks, l.price ≠ (heapGet s.heap oid).price) :
    (cancelOrder s oid).1 = true ∧
    (cancelOrder s oid).2.bids = s.bids ∧
    (cancelOrder s oid).2.asks = s.asks := by
  have hnone : getLevel? s.asks (heapGet s.heap oid).price = none :=
    getLevel?_eq_none hmiss
  simp only [cancelOrder, if_pos hmem, hside, hnone]
  exact ⟨trivial, rfl, rfl⟩

/-- Claim C10. An accepted market order (sentinel price `+∞` for BUY, `0.0`
for SELL) is inserted into the order-id index by `add_market_order` and is
never removed by the matching that follows, even when it fills completely
and rests at no level; a later `cancel_order` with its id therefore
returns `true` and changes no price level on either side. Freshness
hypotheses say the order's id was not already resting in the book, and the
sentinel hypotheses say no same-side level carries the sentinel price (a
sentinel-priced resting level cannot be created through the exchange). -/
theorem claim_C10_market_index (fuel : Nat) (st : OrderBook) (o : Order)
    (f : ℚ) (acc : Bool) (tr : List TradeRec) (st' : OrderBook)
    (hrun : addMarketOrder fuel st o f = (acc, tr, st'))
    (hacc : acc = true)
    (hsent : (o.side = Side.BUY ∧ o.price = pinf) ∨
             (o.side = Side.SELL ∧ o.price = pfin 0))
    (hfreshA : ∀ l ∈ st.asks, o.order_id ∉ l.orders)
    (hfreshB : ∀ l ∈ st.bids, o.order_id ∉ l.orders)
    (hlevB : ∀ l ∈ st.bids, l.price ≠ pinf)
    (hlevA : ∀ l ∈ st.asks, l.price ≠ pfin 0) :
    o.order_id ∈ st'.omap ∧
    (cancelOrder st' o.order_id).1 = true ∧
    (cancelOrder st' o.order_id).2.bids = st'.bids ∧
    (cancelOrder st' o.order_id).2.asks = st'.asks := by
  subst hacc
  simp only [addMarketOrder] at hrun
  by_cases hcf : (canFillOrder st o.side.toStr o.quantity f).1 = true
  · rw [if_pos hcf] at hrun
    simp only [Prod.mk.injEq, true_and] at hrun
    obtain ⟨-, hst'⟩ := hrun
    have hofld : heapGet
        (heapSet st.heap o.order_id o) o.order_id = o :=
      heapGet_heapSet_self _ _ _
    rcases hsent with ⟨hside, hprice⟩ | ⟨hside, hprice⟩
    · -- market BUY: matching runs against the asks, bids stay untouched
      have facts := matchOrder_buy_facts fuel
        { st with heap := heapSet st.heap o.order_id o
                  omap := mapInsert st.omap o.order_id } o.order_id
        ((congrArg Order.side hofld).trans hside)
      rw [← hst']
      have ho : o.order_id ∈
          (matchOrder fuel
            { st with heap := heapSet st.heap o.order_id o
                      omap := mapInsert st.omap o.order_id }
            o.order_id).1.omap :=
        facts.2.1 (mem_mapInsert_self _ _) hfreshA
      have hsd : (heapGet
          (matchOrder fuel
            { st with heap := heapSet st.heap o.order_id o
                      omap := mapInsert st.omap o.order_id }
            o.order_id).1.heap o.order_id).side = Side.BUY :=
        (facts.2.2.1.trans (congrArg Order.side hofld)).trans hside
      have hpr : (heapGet
          (matchOrder fuel
            { st with heap := heapSet st.heap o.order_id o
                      omap := mapInsert st.omap o.order_id }
            o.order_id).1.heap o.order_id).price = pinf :=
        (facts.2.2.2.trans (congrArg Order.price hofld)).trans hprice
      have hmiss : ∀ l ∈ (matchOrder fuel
            { st with heap := heapSet st.heap o.order_id o
                      omap := mapInsert st.omap o.order_id }
            o.order_id).1.bids,
          l.price ≠ (heapGet
            (matchOrder fuel
              { st with heap := heapSet st.heap o.order_id o
                        omap := mapInsert st.omap o.order_id }
              o.order_id).1.heap o.order_id).price := by
        rw [hpr, facts.1]
        exact hlevB
      have hc := cancelOrder_miss_buy _ _ ho hsd hmiss
      exact ⟨ho, hc.1, hc.2.1, hc.2.2⟩
    · -- market SELL: matching runs against the bids, asks stay untouched
      have facts := matchOrder_sell_facts fuel
        { st with heap := heapSet st.heap o.order_id o
                  omap := mapInsert st.omap o.order_id } o.order_id
        ((congrArg Order.side hofld).trans hside)
      rw [← hst']
      have ho : o.order_id ∈
          (matchOrder fuel
            { st with heap := heapSet st.heap o.order_id o
                      omap := mapInsert st.omap o.order_id }
            o.order_id).1.omap :=
        facts.2.1 (mem_mapInsert_self _ _) hfreshB
      have hsd : (heapGet
          (matchOrder fuel
            { st with heap := heapSet st.heap o.order_id o
                      omap := mapInsert st.omap o.order_id }
            o.order_id).1.heap o.order_id).side = Side.SELL :=
        (facts.2.2.1.trans (congrArg Order.side hofld)).trans hside
      have hpr : (heapGet
          (matchOrder fuel
            { st with heap := heapSet st.heap o.order_id o
                      omap := mapInsert st.omap o.order_id }
            o.order_id).1.heap o.order_id).price = pfin 0 :=
        (facts.2.2.2.trans (congrArg Order.price hofld)).trans hprice
      have hmiss : ∀ l ∈ (matchOrder fuel
            { st with heap := heapSet st.heap o.order_id o
                      omap := mapInsert st.omap o.order_id }
            o.order_id).1.asks,
          l.price ≠ (heapGet
            (matchOrder fuel
              { st with heap := heapSet st.heap o.order_id o
                        omap := mapInsert st.omap o.order_id }
              o.order_id).1.heap o.order_id).price := by
        rw [hpr, facts.1]
        exact hlevA
      have hc := cancelOrder_miss_sell _ _ ho hsd hmiss
      exact ⟨ho, hc.1, hc.2.1, hc.2.2⟩
  · rw [if_neg hcf] at hrun
    simp only [Prod.mk.injEq] at hrun
    exact absurd hrun.1 (by simp)

/-- A book with one resting SELL of 10 at 100.0, enough to fill the
witness market order completely. -/
def c10Book : OrderBook :=
  (addLimitOrder 10 (OrderBook.empty "X")
    { order_id := "A1", agent_id := "A", symbol := "X", side := .SELL
      price := pfin 100, quantity := 10, timestamp := 100 } false).1

/-- The witness market BUY (sentinel price `+∞`) for 10 units. -/
def c10Mkt : Order :=
  { order_id := "M1", agent_id := "T", symbol := "X", side := .BUY
    price := pinf, quantity := 10, timestamp := 300 }

/-- The accepted market-order run of the witness. -/
def c10Run : Bool × List TradeRec × OrderBook :=
  addMarketOrder 10 c10Book c10Mkt 1

unseal Rat.add Rat.mul Rat.inv in
/-- Witness for C10: the market BUY is accepted and fills completely, yet
"M1" stays in the order-id index afterwards, and cancelling it succeeds
without touching any price level. -/
theorem claim_C10_market_index_witness :
    c10Run.1 = true ∧
    c10Mkt.order_id ∈ c10Run.2.2.omap ∧
    (cancelOrder c10Run.2.2 c10Mkt.order_id).1 = true ∧
    (cancelOrder c10Run.2.2 c10Mkt.order_id).2.bids = c10Run.2.2.bids ∧
    (cancelOrder c10Run.2.2 c10Mkt.order_id).2.asks = c10Run.2.2.asks := by
  have h := claim_C10_market_index 10 c10Book c10Mkt 1 c10Run.1 c10Run.2.1
    c10Run.2.2 rfl (by decide) (Or.inl ⟨rfl, rfl⟩) (by decide) (by decide)
    (by decide) (by decide)
  exact ⟨by decide, h.1, h.2.1, h.2.2.1, h.2.2.2⟩

/-! ## Claim C9: wildcard pattern matching (`MessageBroker._matches_pattern`)

Python strings are embedded as lists of characters, with the string
operations `in`, `startswith`, `endswith`, slicing `[:-2]` and `[2:]`
rendered as the corresponding list functions. -/

/-- A Python string as a list of characters. -/
abbrev Str := List Char

/-- `"c" in s` for a single character. -/
def strContains (s : Str) (c : Char) : Bool :=
  s.any (fun d => d == c)

/-- `s.startswith(p)`: `strStarts p s` tests whether `s` starts with `p`. -/
def strStarts : Str → Str → Bool
  | [], _ => true
  | _ :: _, [] => false
  | c :: p, d :: s => c == d && strStarts p s

/-- `s.endswith(p)`: `strEnds p s` tests whether `s` ends with `p`. -/
def strEnds (p s : Str) : Bool :=
  strStarts p.reverse s.reverse

/-- `MessageBroker._matches_pattern(topic, pattern)`

(`src/message.py` lines 135–153). -/
def matchesPattern (topic pat : Str) : Bool :=
  if pat = ['*'] then true
  else if strContains pat '*' = false then topic == pat
  else if strEnds ['.', '*'] pat then
    -- `pattern.endswith(".*")`: prefix pattern, `prefix = pattern[:-2]`
    topic == pat.take (pat.length - 2) ||
      strStarts (pat.take (pat.length - 2) ++ ['.']) topic
  else if strStarts ['*', '.'] pat then
    -- `pattern.startswith("*.")`: suffix pattern, `suffix = pattern[2:]`
    strEnds ('.' :: pat.drop 2) topic
  else false

/-- The effective subscription semantics: `subscribe` routes patterns
containing `*` to the wildcard table (matched by `_matches_pattern` in
`_find_recipients`) and all other patterns to the exact-topic table
(matched by equality). -/
def subscriptionMatches (pat topic : Str) : Bool :=
  if strContains pat '*' then matchesPattern topic pat else topic == pat

/-- The claim's matching predicate, read literally as a disjunction of its
four clauses: exact (no `*`), universal `*`, the prefix shape `PREFIX.*`,
and the suffix shape `*.SUFFIX`. -/
def claimMatches (pat topic : Str) : Bool :=
  (!(strContains pat '*') && topic == pat) ||
  pat == ['*'] ||
  (strEnds ['.', '*'] pat &&
    (topic == pat.take (pat.length - 2) ||
     strStarts (pat.take (pat.length - 2) ++ ['.']) topic)) ||
  (strStarts ['*', '.'] pat && strEnds ('.' :: pat.drop 2) topic)

/-- The amended claim: identical to `claimMatches` except that a pattern
which is simultaneously of prefix shape (ends with `".*"`) and of suffix
shape (starts with `"*."`), such as `"*.*"`, is matched by the prefix rule
only — the suffix clause additionally requires that the pattern does not
end with `".*"`. -/
def amendedClaimMatches (pat topic : Str) : Bool :=
  (!(strContains pat '*') && topic == pat) ||
  pat == ['*'] ||
  (strEnds ['.', '*'] pat &&
    (topic == pat.take (pat.length - 2) ||
     strStarts (pat.take (pat.length - 2) ++ ['.']) topic)) ||
  (strStarts ['*', '.'] pat && !(strEnds ['.', '*'] pat) &&
    strEnds ('.' :: pat.drop 2) topic)

lemma strStarts_cons_mem {c : Char} {p l : Str}
    (h : strStarts (c :: p) l = true) : c ∈ l := by
  cases l with
  | nil => simp [strStarts] at h
  | cons d s =>
      simp only [strStarts, Bool.and_eq_true, beq_iff_eq] at h
      exact List.mem_cons.mpr (Or.inl h.1)

lemma strContains_of_mem {c : Char} {s : Str} (h : c ∈ s) :
    strContains s c = true := by
  simp only [strContains, List.any_eq_true]
  exact ⟨c, h, by simp⟩

lemma contains_of_endsDotStar {p : Str} (h : strEnds ['.', '*'] p = true) :
    strContains p '*' = true := by
  unfold strEnds at h
  have hm : '*' ∈ p.reverse := strStarts_cons_mem (by simpa using h)
  exact strContains_of_mem (List.mem_reverse.mp hm)

lemma contains_of_startsStarDot {p : Str}
    (h : strStarts ['*', '.'] p = true) : strContains p '*' = true :=
  strContains_of_mem (strStarts_cons_mem h)

/-- Counterexample to claim C9 as stated: the pattern `"*.*"` is of both
prefix shape (`PREFIX.*` with `PREFIX = "*"`) and suffix shape
(`*.SUFFIX` with `SUFFIX = "*"`). Read as a disjunction, the claim says it
matches the topic `"A.*"` (which ends with `".*"`); the code checks the
prefix shape first and, since `"A.*"` is neither the literal `"*"` nor
starts with `"*."`, does not match. -/
theorem claim_C9_counterexample :
    claimMatches ['*', '.', '*'] ['A', '.', '*'] = true ∧
    subscriptionMatches ['*', '.', '*'] ['A', '.', '*'] = false := by
  decide

/-- Claim C9 (amended): for all patterns and topics, the subscription
semantics of the broker — exact equality for patterns without `*`, and
`_matches_pattern` for patterns with `*` — coincides with the claim's four
clauses, with the prefix rule taking precedence over the suffix rule for
patterns that have both shapes. -/
theorem claim_C9_wildcard_semantics (pat topic : Str) :
    subscriptionMatches pat topic = amendedClaimMatches pat topic := by
  unfold subscriptionMatches matchesPattern amendedClaimMatches
  by_cases hstar : pat = ['*']
  · subst hstar
    simp [strContains, strEnds, strStarts]
  · have hs2 : (pat == ['*']) = false := beq_eq_false_iff_ne.mpr hstar
    by_cases hc : strContains pat '*' = true
    · by_cases hsfx : strEnds ['.', '*'] pat = true
      · simp [hstar, hc, hs2, hsfx]
      · by_cases hpre : strStarts ['*', '.'] pat = true
        · simp [hstar, hc, hs2, hsfx, hpre]
        · simp [hstar, hc, hs2, hsfx, hpre]
    · have hc' : strContains pat '*' = false := by
        simpa using hc
      have h1 : strEnds ['.', '*'] pat = false := by
        cases hx : strEnds ['.', '*'] pat
        · rfl
        · exact absurd (contains_of_endsDotStar hx) (by simp [hc'])
      have h2 : strStarts ['*', '.'] pat = false := by
        cases hx : strStarts ['*', '.'] pat
        · rfl
        · exact absurd (contains_of_startsStarDot hx) (by simp [hc'])
      simp [hc', hs2, h1, h2]

/-! ## Message broker (`src/message.py`)

Payload values as they occur on the simulator's topics. -/

/-- A payload value: strings, ints, floats (`ℚ`), prices, booleans, or
depth-level lists. -/
inductive Val where
  | s (v : String)
  | i (v : Int)
  | q (v : ℚ)
  | p (v : Price)
  | b (v : Bool)
  | lv (v : List (Price × Int))
deriving DecidableEq, Repr

/-- A Python payload dict (`key → value`). -/
abbrev Payload := List (String × Val)

/-- `payload.get(k)`. -/
def pGet? (pl : Payload) (k : String) : Option Val :=
  (pl.find? (fun e => e.1 == k)).map (fun e => e.2)

/-- Mirrors the `Message` dataclass: `message_id` is the uuid4 draw made at
construction, modelled as an explicitly supplied string (the code's only
source of nondeterminism). -/
structure BMessage where
  timestamp : Int
  topic : Str
  payload : Payload
  source_id : String
  message_id : String
deriving DecidableEq, Repr

/-- Lexicographic `<` on Python strings (code-point order), as used by
`Message.__lt__`'s `self.message_id < other.message_id`. -/
def strLtB : List Char → List Char → Bool
  | [], [] => false
  | [], _ :: _ => true
  | _ :: _, [] => false
  | c :: s, d :: t => decide (c < d) || (c == d && strLtB s t)

/-- `a <= b` on message ids. -/
def midLe (a b : String) : Bool :=
  strLtB a.data b.data || a == b

/-- The heap key order of the message queue: `(timestamp, message_id)`
lexicographically (`heapq` entries are `(timestamp, message)` with
`Message.__lt__` breaking ties by `message_id`). -/
def keyLe (a b : BMessage) : Bool :=
  decide (a.timestamp < b.timestamp) ||
  (decide (a.timestamp = b.timestamp) && midLe a.message_id b.message_id)

/-- Ordered insertion keeping the queue sorted by `keyLe`; models pushing
onto the heap (only the extraction order is observable). -/
def qInsert (m : BMessage) : List BMessage → List BMessage
  | [] => [m]
  | x :: xs => if keyLe m x then m :: x :: xs else x :: qInsert m xs

/-- `MessageBroker` state. Handlers are registered by agent id; their
behaviour is passed separately to `deliverMessages` as a function from
recipient and message to the list of messages the handler publishes. -/
structure Broker where
  subscriptions : List (Str × List String)
  wildcardSubs : List (Str × List String)
  queue : List BMessage
  handlers : List String
deriving DecidableEq, Repr

/-- Exact-table lookup. -/
def lookupSubs (tbl : List (Str × List String)) (k : Str) : List String :=
  match tbl.find? (fun e => e.1 == k) with
  | some e => e.2
  | none => []

/-- First-occurrence deduplication: models the recipient `set` with a
fixed, deterministic iteration order (Python's set iteration order is
unspecified; no claim depends on it). -/
def dedupAux (seen : List String) : List String → List String
  | [] => []
  | x :: xs =>
      if x ∈ seen then dedupAux seen xs else x :: dedupAux (x :: seen) xs

/-- `MessageBroker._find_recipients`: exact subscribers unioned with the
subscribers of every wildcard pattern that matches. -/
def findRecipients (br : Broker) (topic : Str) : List String :=
  dedupAux [] (lookupSubs br.subscriptions topic ++
    (br.wildcardSubs.filter (fun e => matchesPattern topic e.1)).flatMap
      (fun e => e.2))

/-- `MessageBroker.publish`: enqueue only — publishing never delivers. -/
def publish (br : Broker) (m : BMessage) : Broker :=
  { br with queue := qInsert m br.queue }

/-- `MessageBroker.get_messages_for_timestamp`: pop every message with
timestamp `<= t`, in key order. -/
def popAll (t : Int) (q : List BMessage) : List BMessage × List BMessage :=
  (q.takeWhile (fun m => decide (m.timestamp ≤ t)),
   q.dropWhile (fun m => decide (m.timestamp ≤ t)))

/-- `recipient_messages` accumulation: append `m` to `r`'s bucket,
creating the bucket at the end on first occurrence (dict insertion
order). -/
def addToGroup (acc : List (String × List BMessage)) (r : String)
    (m : BMessage) : List (String × List BMessage) :=
  if acc.any (fun g => g.1 == r) then
    acc.map (fun g => if g.1 == r then (g.1, g.2 ++ [m]) else g)
  else acc ++ [(r, [m])]

/-- Group the popped messages by recipient as `deliver_messages` does. -/
def buildGroups (br : Broker) (msgs : List BMessage) :
    List (String × List BMessage) :=
  msgs.foldl
    (fun acc m =>
      (findRecipients br m.topic).foldl (fun acc2 r => addToGroup acc2 r m)
        acc)
    []

/-- `MessageBroker.deliver_messages(t)`: pop all pending messages with
timestamp `<= t` first, group them by recipient, invoke each registered
recipient's handler once per matching message, and enqueue everything the
handlers publish. Returns the handler invocations `(recipient, message)`
in invocation order together with the new broker state. (Python pushes the
handler publications during the iteration, but the queue is only read
again by a later pop, and insertion into the key-ordered queue is
order-independent.) -/
def deliverMessages (hb : String → BMessage → List BMessage) (br : Broker)
    (t : Int) : List (String × BMessage) × Broker :=
  let popped := popAll t br.queue
  let groups := buildGroups br popped.1
  let delivered :=
    (groups.filter (fun g => br.handlers.contains g.1)).flatMap
      (fun g => g.2.map (fun m => (g.1, m)))
  let pubs := delivered.flatMap (fun rm => hb rm.1 rm.2)
  (delivered, { br with queue := pubs.foldl (fun q m => qInsert m q) popped.2 })

/-- The messages published by handlers during one `deliver_messages`
pass. -/
def passPubs (hb : String → BMessage → List BMessage) (br : Broker)
    (t : Int) : List BMessage :=
  (deliverMessages hb br t).1.flatMap (fun rm => hb rm.1 rm.2)

/-- The queue invariant: sorted by `(timestamp, message_id)`. -/
abbrev QSorted (q : List BMessage) : Prop :=
  q.Sorted (fun a b => keyLe a b = true)

lemma strLtB_total : ∀ s t : List Char,
    strLtB s t = true ∨ strLtB t s = true ∨ s = t := by
  intro s
  induction s with
  | nil =>
      intro t
      cases t with
      | nil => exact Or.inr (Or.inr rfl)
      | cons d t' => exact Or.inl rfl
  | cons c s' ih =>
      intro t
      cases t with
      | nil => exact Or.inr (Or.inl rfl)
      | cons d t' =>
          rcases lt_trichotomy c d with hlt | heq | hgt
          · left; simp [strLtB, hlt]
          · subst heq
            rcases ih t' with h | h | h
            · left; simp [strLtB, h]
            · right; left; simp [strLtB, h]
            · subst h; exact Or.inr (Or.inr rfl)
          · right; left; simp [strLtB, hgt]

lemma strLtB_trans : ∀ {s t u : List Char},
    strLtB s t = true → strLtB t u = true → strLtB s u = true := by
  intro s
  induction s with
  | nil =>
      intro t u h1 h2
      cases t with
      | nil => simp [strLtB] at h1
      | cons d t' =>
          cases u with
          | nil => simp [strLtB] at h2
          | cons e u' => simp [strLtB]
  | cons c s' ih =>
      intro t u h1 h2
      cases t with
      | nil => simp [strLtB] at h1
      | cons d t' =>
          cases u with
          | nil => simp [strLtB] at h2
          | cons e u' =>
              simp only [strLtB, Bool.or_eq_true, Bool.and_eq_true,
                decide_eq_true_eq, beq_iff_eq] at h1 h2 ⊢
              rcases h1 with h1 | ⟨hcd, h1⟩
              · rcases h2 with h2 | ⟨hde, h2⟩
                · exact Or.inl (lt_trans h1 h2)
                · exact Or.inl (h1.trans_eq hde)
              · rcases h2 with h2 | ⟨hde, h2⟩
                · exact Or.inl (hcd.trans_lt h2)
                · exact Or.inr ⟨hcd.trans hde, ih h1 h2⟩

lemma keyLe_total (a b : BMessage) :
    keyLe a b = true ∨ keyLe b a = true := by
  rcases lt_trichotomy a.timestamp b.timestamp with hlt | heq | hgt
  · left; simp [keyLe, hlt]
  · rcases strLtB_total a.message_id.data b.message_id.data with h | h | h
    · left; simp [keyLe, heq, midLe, h]
    · right; simp [keyLe, heq.symm, midLe, h]
    · have hmid : a.message_id = b.message_id := by
        cases hma : a.message_id with
        | mk la =>
            cases hmb : b.message_id with
            | mk lb =>
                rw [hma, hmb] at h
                exact congrArg String.mk (by simpa using h)
      left; simp [keyLe, heq, midLe, hmid]
  · right; simp [keyLe, hgt]

lemma keyLe_trans {a b c : BMessage} (h1 : keyLe a b = true)
    (h2 : keyLe b c = true) : keyLe a c = true := by
  simp only [keyLe, Bool.or_eq_true, Bool.and_eq_true, decide_eq_true_eq,
    midLe, beq_iff_eq] at h1 h2 ⊢
  rcases h1 with h1 | ⟨he1, hm1⟩
  · rcases h2 with h2 | ⟨he2, hm2⟩
    · exact Or.inl (h1.trans h2)
    · exact Or.inl (h1.trans_eq he2)
  · rcases h2 with h2 | ⟨he2, hm2⟩
    · exact Or.inl (he1.trans_lt h2)
    · refine Or.inr ⟨he1.trans he2, ?_⟩
      rcases hm1 with hm1 | hm1
      · rcases hm2 with hm2 | hm2
        · exact Or.inl (strLtB_trans hm1 hm2)
        · exact Or.inl (hm2 ▸ hm1)
      · rcases hm2 with hm2 | hm2
        · exact Or.inl (by rw [hm1]; exact hm2)
        · exact Or.inr (hm1.trans hm2)

lemma keyLe_ts {a b : BMessage} (h : keyLe a b = true) :
    a.timestamp ≤ b.timestamp := by
  simp only [keyLe, Bool.or_eq_true, Bool.and_eq_true,
    decide_eq_true_eq] at h
  rcases h with h | ⟨h, -⟩
  · exact le_of_lt h
  · exact le_of_eq h

lemma mem_qInsert {x m : BMessage} :
    ∀ {q : List BMessage}, x ∈ qInsert m q ↔ x = m ∨ x ∈ q := by
  intro q
  induction q with
  | nil => simp [qInsert]
  | cons a s ih =>
      simp only [qInsert]
      split_ifs with h
      · simp [List.mem_cons]
      · simp [List.mem_cons, ih, or_left_comm]

lemma QSorted_qInsert {m : BMessage} :
    ∀ {q : List BMessage}, QSorted q → QSorted (qInsert m q) := by
  intro q
  induction q with
  | nil => intro _; simp [QSorted, qInsert]
  | cons a s ih =>
      intro hs
      rcases List.sorted_cons.mp hs with ⟨ha, hrest⟩
      simp only [qInsert]
      split_ifs with h
      · refine List.sorted_cons.mpr ⟨?_, hs⟩
        intro y hy
        rcases List.mem_cons.mp hy with rfl | hy'
        · exact h
        · exact keyLe_trans h (ha y hy')
      · refine List.sorted_cons.mpr ⟨?_, ih hrest⟩
        intro y hy
        rcases mem_qInsert.mp hy with rfl | hy'
        · rcases keyLe_total y a with h1 | h1
          · exact absurd h1 h
          · exact h1
        · exact ha y hy'

lemma QSorted_foldl_qInsert :
    ∀ (l : List BMessage) {q : List BMessage}, QSorted q →
      QSorted (l.foldl (fun acc m => qInsert m acc) q) := by
  intro l
  induction l with
  | nil => intro q hq; exact hq
  | cons m rest ih => intro q hq; exact ih (QSorted_qInsert hq)

lemma mem_foldl_qInsert {x : BMessage} :
    ∀ {l : List BMessage} {q : List BMessage}, (x ∈ q ∨ x ∈ l) →
      x ∈ l.foldl (fun acc m => qInsert m acc) q := by
  intro l
  induction l with
  | nil =>
      intro q h
      rcases h with h | h
      · exact h
      · simp at h
  | cons m rest ih =>
      intro q h
      rcases h with h | h
      · exact ih (Or.inl (mem_qInsert.mpr (Or.inr h)))
      · rcases List.mem_cons.mp h with rfl | h'
        · exact ih (Or.inl (mem_qInsert.mpr (Or.inl rfl)))
        · exact ih (Or.inr h')

lemma addToGroup_sub {S : List BMessage}
    {acc : List (String × List BMessage)} {r : String} {m : BMessage}
    (hacc : ∀ g ∈ acc, ∀ x ∈ g.2, x ∈ S) (hm : m ∈ S) :
    ∀ g ∈ addToGroup acc r m, ∀ x ∈ g.2, x ∈ S := by
  intro g hg x hx
  unfold addToGroup at hg
  split_ifs at hg with h
  · rcases List.mem_map.mp hg with ⟨g0, hg0, rfl⟩
    split_ifs at hx with h2
    · rcases List.mem_append.mp hx with h3 | h3
      · exact hacc g0 hg0 x h3
      · simp at h3; subst h3; exact hm
    · exact hacc g0 hg0 x hx
  · rcases List.mem_append.mp hg with h1 | h1
    · exact hacc g h1 x hx
    · simp only [List.mem_singleton] at h1
      subst h1
      simp only [List.mem_singleton] at hx
      subst hx
      exact hm

lemma foldRecipients_sub {S : List BMessage} {m : BMessage} (hm : m ∈ S) :
    ∀ (rs : List String) (acc : List (String × List BMessage)),
      (∀ g ∈ acc, ∀ x ∈ g.2, x ∈ S) →
      ∀ g ∈ rs.foldl (fun acc2 r => addToGroup acc2 r m) acc,
        ∀ x ∈ g.2, x ∈ S := by
  intro rs
  induction rs with
  | nil => intro acc hacc; exact hacc
  | cons r rest ih => intro acc hacc; exact ih _ (addToGroup_sub hacc hm)

lemma buildGroups_sub (br : Broker) :
    ∀ (msgs : List BMessage) (S : List BMessage)
      (acc : List (String × List BMessage)),
      (∀ g ∈ acc, ∀ x ∈ g.2, x ∈ S) → (∀ x ∈ msgs, x ∈ S) →
      ∀ g ∈ msgs.foldl
        (fun acc2 m =>
          (findRecipients br m.topic).foldl
            (fun acc3 r => addToGroup acc3 r m) acc2) acc,
        ∀ x ∈ g.2, x ∈ S := by
  intro msgs
  induction msgs with
  | nil => intro S acc hacc _; exact hacc
  | cons m rest ih =>
      intro S acc hacc hmsgs
      exact ih S _ (foldRecipients_sub (hmsgs m (by simp)) _ acc hacc)
        (fun x hx => hmsgs x (by simp [hx]))

/-- A message handed to a handler during a delivery pass was among the
messages popped at the start of that pass. -/
lemma delivered_msg_mem {hb : String → BMessage → List BMessage}
    {br : Broker} {t : Int} {r : String} {m : BMessage}
    (h : (r, m) ∈ (deliverMessages hb br t).1) :
    m ∈ (popAll t br.queue).1 := by
  simp only [deliverMessages] at h
  rcases List.mem_flatMap.mp h with ⟨g, hg, hmem⟩
  rcases List.mem_map.mp hmem with ⟨m0, hm0, heq⟩
  have hm : m ∈ g.2 := by
    cases heq
    exact hm0
  exact buildGroups_sub br (popAll t br.queue).1 (popAll t br.queue).1 []
    (by simp) (fun x hx => hx) g (List.mem_of_mem_filter hg) m hm

lemma mem_takeWhile_of_sorted {t' : Int} :
    ∀ {q : List BMessage}, QSorted q → ∀ {m : BMessage}, m ∈ q →
      m.timestamp ≤ t' →
      m ∈ q.takeWhile (fun x => decide (x.timestamp ≤ t')) := by
  intro q
  induction q with
  | nil => intro _ m hm; simp at hm
  | cons a rest ih =>
      intro hs m hm hle
      rcases List.sorted_cons.mp hs with ⟨ha, hrest⟩
      by_cases hpa : a.timestamp ≤ t'
      · rw [List.takeWhile_cons_of_pos (by simpa using hpa)]
        rcases List.mem_cons.mp hm with rfl | hm'
        · exact List.mem_cons_self _ _
        · exact List.mem_cons_of_mem _ (ih hrest hm' hle)
      · exfalso
        rcases List.mem_cons.mp hm with rfl | hm'
        · exact hpa hle
        · exact hpa (le_trans (keyLe_ts (ha m hm')) hle)

/-- Claim C6. Same-pass isolation: a message `m` published by a handler
while it is being invoked inside `deliver_messages(t)` — i.e.
`m ∈ passPubs hb br t` — and not already pending beforehand is (1) never
handed to any recipient within that same call, even when its timestamp
equals `t`; (2) left pending in the queue afterwards; (3) still pending
after any later pop at a time `t' < m.timestamp`; and (4) among the
messages popped (and hence processed) by the first later
`deliver_messages(t')` with `t' ≥ m.timestamp`. -/
theorem claim_C6_same_pass_isolation
    (hb : String → BMessage → List BMessage) (br : Broker) (t : Int)
    (m : BMessage)
    (hsorted : QSorted br.queue)
    (hpub : m ∈ passPubs hb br t)
    (hnew : m ∉ br.queue) :
    (∀ r, (r, m) ∉ (deliverMessages hb br t).1) ∧
    m ∈ (deliverMessages hb br t).2.queue ∧
    (∀ t', t' < m.timestamp →
      m ∈ (popAll t' (deliverMessages hb br t).2.queue).2) ∧
    (∀ t', m.timestamp ≤ t' →
      m ∈ (popAll t' (deliverMessages hb br t).2.queue).1) := by
  have hq' : (deliverMessages hb br t).2.queue =
      (passPubs hb br t).foldl (fun acc x => qInsert x acc)
        (popAll t br.queue).2 := rfl
  have hmem' : m ∈ (deliverMessages hb br t).2.queue := by
    rw [hq']
    exact mem_foldl_qInsert (Or.inr hpub)
  have hsorted' : QSorted (deliverMessages hb br t).2.queue := by
    rw [hq']
    refine QSorted_foldl_qInsert _ ?_
    exact List.Pairwise.sublist (List.dropWhile_sublist _) hsorted
  refine ⟨?_, hmem', ?_, ?_⟩
  · intro r hr
    exact hnew ((List.takeWhile_sublist _).subset (delivered_msg_mem hr))
  · intro t' hlt
    have hsplit := List.takeWhile_append_dropWhile
      (p := fun x => decide (x.timestamp ≤ t'))
      (l := (deliverMessages hb br t).2.queue)
    have : m ∈ (deliverMessages hb br t).2.queue := hmem'
    rw [← hsplit] at this
    rcases List.mem_append.mp this with hin | hin
    · have := List.mem_takeWhile_imp hin
      simp only [decide_eq_true_eq] at this
      exact absurd this (not_le.mpr hlt)
    · exact hin
  · intro t' hle
    exact mem_takeWhile_of_sorted hsorted' hmem' hle

/-- Witness scenario for C6: one pending message at t=5 whose handler
publishes a same-timestamp reply. -/
def c6Msg0 : BMessage :=
  { timestamp := 5, topic := ['T'], payload := [], source_id := "A"
    message_id := "a" }

/-- The reply message the subscriber's handler publishes (same timestamp
5, fresh uuid). -/
def c6Msg1 : BMessage :=
  { timestamp := 5, topic := ['T'], payload := [], source_id := "S"
    message_id := "b" }

/-- Broker with subscriber "S" on topic "T" and one pending message. -/
def c6Broker : Broker :=
  { subscriptions := [(['T'], ["S"])], wildcardSubs := []
    queue := [c6Msg0], handlers := ["S"] }

/-- Handler behaviour: "S" answers `c6Msg0` with `c6Msg1`. -/
def c6Hb : String → BMessage → List BMessage :=
  fun r msg =>
    if r == "S" && msg.message_id == "a" then [c6Msg1] else []

/-- Witness for C6 at the concrete scenario: the reply published during
`deliver_messages(5)` is not delivered in that pass even though its
timestamp is 5, stays queued, and is popped by the next pass at 5. -/
theorem claim_C6_same_pass_isolation_witness :
    QSorted c6Broker.queue ∧
    c6Msg1 ∈ passPubs c6Hb c6Broker 5 ∧
    c6Msg1 ∉ c6Broker.queue ∧
    ("S", c6Msg1) ∉ (deliverMessages c6Hb c6Broker 5).1 ∧
    c6Msg1 ∈ (deliverMessages c6Hb c6Broker 5).2.queue ∧
    c6Msg1 ∈ (popAll 5 (deliverMessages c6Hb c6Broker 5).2.queue).1 := by
  have h := claim_C6_same_pass_isolation c6Hb c6Broker 5 c6Msg1
    (by decide) (by decide) (by decide)
  exact ⟨by decide, by decide, by decide, h.1 "S", h.2.1,
    h.2.2.2 5 (by decide)⟩

/-! ## Claim C4: cross-run determinism and the uuid4 message ids -/

/-- Broker with a single subscriber "S" on topic "T" and no pending
messages (the state after identical agent registration in both runs). -/
def c4Broker0 : Broker :=
  { subscriptions := [(['T'], ["S"])], wildcardSubs := [], queue := []
    handlers := ["S"] }

/-- One run of the fixed scenario: agent "A" publishes payload `PA` and
agent "B" publishes payload `PB`, both at t=0 and in this order; the
kernel then delivers at t=0. The two arguments are the uuid4 draws
`Message.message_id` makes for the two publications — the only quantity
that differs between two otherwise identical runs. Returns the handler
invocation sequence. -/
def c4Run (id1 id2 : String) : List (String × BMessage) :=
  (deliverMessages (fun _ _ => [])
    (publish (publish c4Broker0
      { timestamp := 0, topic := ['T'], payload := [("v", Val.s "PA")]
        source_id := "A", message_id := id1 })
      { timestamp := 0, topic := ['T'], payload := [("v", Val.s "PB")]
        source_id := "B", message_id := id2 })
    0).1

/-- Claim C4 evaluated on the code. Two runs with identical registration
order, identical initial events and identical (deterministic) agent
logic, differing only in the uuid4 draws for `message_id`, deliver the two
equal-timestamp messages in different orders and with different message
contents: the delivered sequences are not bit-identical. `uuid.uuid4()`
is unseeded randomness inside the core, so the code cannot guarantee the
claimed determinism. -/
theorem claim_C4_uuid_nondeterminism :
    (c4Run "a" "b").map (fun rm => rm.2.payload) =
      [[("v", Val.s "PA")], [("v", Val.s "PB")]] ∧
    (c4Run "b" "a").map (fun rm => rm.2.payload) =
      [[("v", Val.s "PB")], [("v", Val.s "PA")]] ∧
    (c4Run "a" "b").map (fun rm => rm.2.payload) ≠
      (c4Run "b" "a").map (fun rm => rm.2.payload) ∧
    c4Run "a" "b" ≠ c4Run "b" "a" := by
  decide

/-! ## Kernel (`src/core/kernel.py`) and the agent wakeup contract
(`src/core/agent.py`) -/

/-- The local state of an `ActiveAgent`: its `scheduled_wakeups` set. -/
structure AgentLocal where
  scheduled_wakeups : List Int
deriving DecidableEq, Repr

/-- `set.add` on the wakeup-time set. -/
def insertTime (t : Int) (l : List Int) : List Int :=
  if t ∈ l then l else l ++ [t]

/-- `ActiveAgent.schedule_wakeup(timestamp)` (`src/core/agent.py` lines
99–102): adds the time to the agent's own `scheduled_wakeups` set and
returns the timestamp. The kernel is not an argument and is not touched —
no `kernel.schedule_event` call is made. -/
def scheduleWakeup (a : AgentLocal) (t : Int) : AgentLocal × Int :=
  ({ scheduled_wakeups := insertTime t a.scheduled_wakeups }, t)

/-- A kernel event `(timestamp, agent_id, event_type)`. -/
structure KEvent where
  timestamp : Int
  agent_id : String
  kind : String
deriving DecidableEq, Repr

/-- Kernel state: virtual clock, end time, the event min-heap (modelled as
a list sorted by timestamp; ties are popped together so their internal
order is unobservable), the `timestamp → agent_ids` wakeup index, the
owned broker, and the registered agents (`id`, `isinstance ActiveAgent`). -/
structure KState where
  current_time : Int
  end_time : Int
  event_queue : List KEvent
  agent_wakeups : List (Int × List String)
  broker : Broker
  agents : List (String × Bool)

/-- Timestamp-ordered insertion into the event heap. -/
def insertEvent (e : KEvent) : List KEvent → List KEvent
  | [] => [e]
  | x :: xs =>
      if e.timestamp < x.timestamp then e :: x :: xs
      else x :: insertEvent e xs

/-- Add an agent id to the wakeup set of a timestamp (deduplicating). -/
def addWakeup (m : List (Int × List String)) (t : Int) (aid : String) :
    List (Int × List String) :=
  if m.any (fun e => decide (e.1 = t)) then
    m.map (fun e =>
      if e.1 = t then (e.1, if aid ∈ e.2 then e.2 else e.2 ++ [aid]) else e)
  else m ++ [(t, [aid])]

/-- `Kernel.schedule_event`: rejects past timestamps (`none` models the
raised `ValueError`), pushes the event, and indexes wakeups. -/
def scheduleEvent (k : KState) (t : Int) (aid : String) (kind : String) :
    Option KState :=
  if t < k.current_time then none
  else
    let k := { k with event_queue := insertEvent ⟨t, aid, kind⟩ k.event_queue }
    if kind == "wakeup" then
      some { k with agent_wakeups := addWakeup k.agent_wakeups t aid }
    else some k

/-- The wakeup set registered with the kernel for a timestamp. -/
def wakeupsAt (k : KState) (t : Int) : List String :=
  match k.agent_wakeups.find? (fun e => decide (e.1 = t)) with
  | some e => e.2
  | none => []

/-- `Kernel._process_events_at_timestamp`: pop every event at exactly this
timestamp, deliver pending messages, then invoke `wakeup` on each
registered active agent in the wakeup set, and drop the set. The `hook`
argument models the agents' `wakeup` overrides (an override may publish
and schedule, i.e. transform the whole kernel state); `hb` models their
message handlers. Returns the kernel state and the `(time, agent)` wakeup
invocations. -/
def processEventsAt (hook : String → Int → KState → KState)
    (hb : String → BMessage → List BMessage) (k : KState) (t : Int) :
    KState × List (Int × String) :=
  let k1 := { k with event_queue :=
    k.event_queue.dropWhile (fun e => decide (e.timestamp = t)) }
  let d := deliverMessages hb k1.broker t
  let k2 := { k1 with broker := d.2 }
  let ws := wakeupsAt k2 t
  let r := ws.foldl
    (fun (acc : KState × List (Int × String)) aid =>
      match acc.1.agents.find? (fun p => p.1 == aid) with
      | some p =>
          if p.2 then (hook aid t acc.1, acc.2 ++ [(t, aid)]) else acc
      | none => acc)
    (k2, [])
  ({ r.1 with agent_wakeups :=
      r.1.agent_wakeups.filter (fun e => ! decide (e.1 = t)) }, r.2)

/-- The `while` loop of `Kernel.run` (fuel-bounded; every theorem holds
for every fuel). -/
def runLoop (hook : String → Int → KState → KState)
    (hb : String → BMessage → List BMessage) :
    Nat → KState → KState × List (Int × String)
  | 0, k => (k, [])
  | fuel + 1, k =>
      if k.current_time < k.end_time then
        match k.event_queue with
        | [] => runLoop hook hb fuel { k with current_time := k.end_time }
        | e :: _ =>
            let t := if e.timestamp > k.end_time then k.end_time
                     else e.timestamp
            let r := processEventsAt hook hb { k with current_time := t } t
            let r2 := runLoop hook hb fuel r.1
            (r2.1, r.2 ++ r2.2)
      else (k, [])

/-- `Kernel.run(end_time)`: reset the clock, run the loop, then the final
`deliver_messages` flush. Returns the final state and the full wakeup
invocation log. -/
def kernelRun (hook : String → Int → KState → KState)
    (hb : String → BMessage → List BMessage) (fuel : Nat) (k : KState)
    (end_time : Int) : KState × List (Int × String) :=
  let r := runLoop hook hb fuel
    { k with end_time := end_time, current_time := 0 }
  let d := deliverMessages hb r.1.broker r.1.current_time
  ({ r.1 with broker := d.2 }, r.2)

/-- The exchange agent's local wakeup set at construction. -/
def exchAgent0 : AgentLocal := { scheduled_wakeups := [] }

/-- The kernel state after `register_agent(exchange)` and
`exchange.initialize_symbol("X")`: the symbol's three subscriptions and the
handler registration exist, but the event queue and the wakeup index are
empty, because the `schedule_wakeup(100)` made inside `initialize_symbol`
never reached the kernel. -/
def c5Kernel0 : KState :=
  { current_time := 0, end_time := 0
    event_queue := []
    agent_wakeups := []
    broker :=
      { subscriptions :=
          [("X.ORDER".data, ["EXCHANGE"]), ("X.CANCEL".data, ["EXCHANGE"]),
           ("X.MARKET_DEPTH".data, ["EXCHANGE"])]
        wildcardSubs := [], queue := [], handlers := ["EXCHANGE"] }
    agents := [("EXCHANGE", true)] }

/-- Claim C5 evaluated on the code. `ActiveAgent.schedule_wakeup(100)`
only records 100 in the agent's local `scheduled_wakeups` set (and returns
100); it never calls `kernel.schedule_event`, so after the exchange agent
initializes symbol "X" the kernel's event queue is still empty, and
`kernel.run(end_time)` — for every end time, every agent wakeup behaviour
and every handler behaviour — invokes not a single wakeup: the log of
wakeup invocations is empty. The claimed periodic wakeup (and the
SYMBOL.STATS publications made from it) never happens. -/
theorem claim_C5_schedule_wakeup_lost (fuel : Nat) (endT : Int)
    (hook : String → Int → KState → KState)
    (hb : String → BMessage → List BMessage) :
    (scheduleWakeup exchAgent0 100).1.scheduled_wakeups = [100] ∧
    (scheduleWakeup exchAgent0 100).2 = 100 ∧
    (kernelRun hook hb fuel c5Kernel0 endT).2 = [] := by
  refine ⟨rfl, rfl, ?_⟩
  have hloop : ∀ (n : Nat) (k : KState), k.event_queue = [] →
      (runLoop hook hb n k).2 = [] := by
    intro n
    induction n with
    | zero => intro k h; rfl
    | succ n ih =>
        intro k h
        simp only [runLoop]
        split_ifs with hc
        · rw [h]
          exact ih _ rfl
        · rfl
  exact hloop fuel _ rfl

/-! ## Exchange agent market-depth queries (`src/core/exchange.py`) -/

/-- `payload.get(k)` expecting a string; mirrors Python's `None` default
with the empty string (an unknown symbol / unrecognized query type). -/
def pGetStr (pl : Payload) (k : String) : String :=
  match pGet? pl k with
  | some (Val.s v) => v
  | _ => ""

/-- `payload.get(k, d)` for an integer depth. -/
def pGetNatD (pl : Payload) (k : String) (d : Nat) : Nat :=
  match pGet? pl k with
  | some (Val.i v) => v.toNat
  | _ => d

/-- `payload.get(k, d)` for integer quantities. -/
def pGetIntD (pl : Payload) (k : String) (d : Int) : Int :=
  match pGet? pl k with
  | some (Val.i v) => v
  | _ => d

/-- `payload.get(k, None)` for the optional depth. -/
def pGetOptNat (pl : Payload) (k : String) : Option Nat :=
  match pGet? pl k with
  | some (Val.i v) => some v.toNat
  | _ => none

/-- `payload.get(k, d)` for a float. -/
def pGetRatD (pl : Payload) (k : String) (d : ℚ) : ℚ :=
  match pGet? pl k with
  | some (Val.q v) => v
  | _ => d

/-- `ExchangeAgent._process_market_depth_query` (`src/core/exchange.py`
lines 177–233): for an unknown symbol, log a warning and send nothing; for
a known symbol, start the response payload from `{"query_type": ...}`,
dispatch over the seven recognized query types to add the result fields
(an unrecognized type adds nothing), and publish the single response on
`SYMBOL.MARKET_DEPTH_RESPONSE` with the inbound timestamp. The returned
list holds the publications as `(topic, payload, timestamp)`. -/
def processMarketDepthQuery (books : List (String × OrderBook))
    (payload : Payload) (ts : Int) : List (Str × Payload × Int) :=
  let symbol := pGetStr payload "symbol"
  let query_type := pGetStr payload "query_type"
  match books.find? (fun e => e.1 == symbol) with
  | none => []
  | some e =>
      let ob := e.2
      let rp : Payload := [("query_type", Val.s query_type)]
      let rp :=
        if query_type == "get_market_depth" then
          rp ++ [("levels", Val.lv (getMarketDepth ob
            (pGetStr payload "side") (pGetNatD payload "depth" 5)))]
        else if query_type == "get_total_quantity_at_side" then
          rp ++ [("quantity", Val.i (getTotalQuantityAtSide ob
            (pGetStr payload "side") (pGetOptNat payload "depth")))]
        else if query_type == "get_average_price_for_quantity" then
          let r := getAveragePriceForQuantity ob (pGetStr payload "side")
            (pGetIntD payload "quantity" 0)
          rp ++ [("average_price", Val.q r.1), ("slippage_bps", Val.q r.2.1),
                 ("fill_percentage", Val.q r.2.2)]
        else if query_type == "can_fill_order" then
          let r := canFillOrder ob (pGetStr payload "side")
            (pGetIntD payload "quantity" 0)
            (pGetRatD payload "min_fill_percent" 1)
          rp ++ [("can_fill", Val.b r.1), ("actual_fill_percentage", Val.q r.2)]
        else if query_type == "get_liquidity_score" then
          rp ++ [("liquidity_score", Val.q (getLiquidityScore ob
            (pGetIntD payload "reference_quantity" 100)))]
        else if query_type == "get_spread" then
          rp ++ [("spread", Val.p (getSpread ob))]
        else if query_type == "get_imbalance" then
          rp ++ [("imbalance", Val.q (getImbalance ob))]
        else rp
      [((symbol ++ ".MARKET_DEPTH_RESPONSE").data, rp, ts)]

/-- The witness query of claim C8: a `get_spread` query on the known
symbol "X" carrying `query_id = "Q1"`. -/
def c8Payload : Payload :=
  [("symbol", Val.s "X"), ("query_type", Val.s "get_spread"),
   ("query_id", Val.s "Q1")]

/-- Claim C8 evaluated on the code. The exchange answers the recognized
`get_spread` query on the known symbol "X" with exactly one
`X.MARKET_DEPTH_RESPONSE` publication — but its payload holds only
`query_type` and the result: the `query_id` "Q1" of the query is NOT
echoed (the handler never reads it), even though the in-repo client
`order_book_utils.handle_market_depth_response` matches responses to
pending queries by exactly that field. -/
theorem claim_C8_query_id_not_echoed :
    processMarketDepthQuery [("X", OrderBook.empty "X")] c8Payload 100 =
      [("X.MARKET_DEPTH_RESPONSE".data,
        [("query_type", Val.s "get_spread"), ("spread", Val.p pinf)],
        100)] ∧
    (processMarketDepthQuery [("X", OrderBook.empty "X")]
      c8Payload 100).length = 1 ∧
    pGet? c8Payload "query_id" = some (Val.s "Q1") ∧
    (∀ out ∈ processMarketDepthQuery [("X", OrderBook.empty "X")]
        c8Payload 100,
      pGet? out.2.1 "query_id" = none) := by
  decide

end CryptoSim
